import Mathlib

/-!
Verification of the cosine noise schedule and forward-diffusion corruption
step of `experiments/synthesizer-img/train.py`, together with the
checkpoint-resume behaviour of its epoch loop.

The numeric code is embedded over exact real arithmetic:
`linspace` models `torch.linspace(0, e, n)`, `cosine_alphas_bar` is a direct
transcription of the schedule function, `alphas` is the reversed view built
at line 102 (`torch.flip(cosine_alphas_bar(params.timesteps), (0,))`), and
`corrupt` models one sample of the corruption step
`alpha_batch.sqrt() * images + (1 - alpha_batch).sqrt() * random_sample`
with `torchGet` reproducing PyTorch's index semantics (negative indices in
`[-len, 0)` wrap; anything outside `[-len, len)` is an IndexError, modelled
as `none`).
-/

namespace SynthDiffusion

/-- Model of `torch.linspace(0, e, n)`: `n` evenly spaced points from `0` to
`e`; point `i` is `e * i / (n - 1)` (for `n = 1` torch returns `[0]`, which
the formula also yields since division by zero is zero in Lean). -/
noncomputable def linspace (e : ℝ) (n : ℕ) : List ℝ :=
  (List.range n).map (fun i : ℕ => e * (i : ℝ) / ((n : ℝ) - 1))

/-- Direct transcription of `cosine_alphas_bar` (train.py lines 51-56):
`steps = timesteps + 1`; `x = torch.linspace(0, steps, steps)`;
`alphas_bar = cos(((x / steps) + s) / (1 + s) * pi * 0.5) ** 2`;
`alphas_bar = alphas_bar / alphas_bar[0]`; `return alphas_bar[:timesteps]`.
The source default is `s = 0.008`. -/
noncomputable def cosine_alphas_bar (timesteps : ℕ) (s : ℝ := 0.008) : List ℝ :=
  let steps := timesteps + 1
  let x := linspace (steps : ℝ) steps
  let ab := x.map (fun xi => Real.cos ((xi / (steps : ℝ) + s) / (1 + s) * (Real.pi * 0.5)) ^ 2)
  ((ab.map (fun v => v / ab.headI)).take timesteps)

/-- The reversed schedule built once at train.py line 102:
`alphas = torch.flip(cosine_alphas_bar(params.timesteps), (0,))`.  The
schedule offset `s` is kept as a parameter (the run uses the default
`0.008`). -/
noncomputable def alphas (timesteps : ℕ) (s : ℝ) : List ℝ :=
  (cosine_alphas_bar timesteps s).reverse

/-- Entry accessor used in statements: the `i`-th schedule value
(defaulting to `0` out of range). -/
def entry (l : List ℝ) (i : ℕ) : ℝ := l.getD i 0

/-- Closed form of one unnormalized schedule point: the value
`cos(((i/T + s)/(1+s)) * (pi/2))^2` that the grid point `x_i` of
`cosine_alphas_bar` evaluates to, since `x_i / steps = i / T`. -/
noncomputable def rawPoint (T : ℕ) (s : ℝ) (i : ℕ) : ℝ :=
  Real.cos (((i : ℝ) / (T : ℝ) + s) / (1 + s) * (Real.pi * 0.5)) ^ 2

/-- PyTorch tensor index semantics for a 1-D tensor: an index in
`[0, len)` reads directly, an index in `[-len, 0)` wraps by adding `len`,
and anything else is an IndexError (`none`). -/
def torchGet (l : List ℝ) (t : ℤ) : Option ℝ :=
  if 0 ≤ t ∧ t < (l.length : ℤ) then l[t.toNat]?
  else if -(l.length : ℤ) ≤ t ∧ t < 0 then l[(t + l.length).toNat]?
  else none

/-- One sample of the corruption step (train.py lines 122-128): look up the
retained-signal fraction `a = alphas[t]` and return
`sqrt(a) * x + sqrt(1 - a) * noise`, pointwise over the sample's index
space `ι` (the broadcast of the scalar `a` over the C×H×W dimensions).
An out-of-range lookup propagates as `none`. -/
noncomputable def corrupt {ι : Type} (sched : List ℝ) (t : ℤ) (x noise : ι → ℝ) :
    Option (ι → ℝ) :=
  (torchGet sched t).map fun a => fun i => Real.sqrt a * x i + Real.sqrt (1 - a) * noise i

/-- The schedule as the spec's section 4.1 words it, for the refinement
claim: construct `steps = timesteps + 1` evenly spaced sample points over
`[0, steps]` (point `i` is `i` times the spacing `steps / (steps - 1)`),
map each point `x` to `cos(((x/steps + s)/(1+s)) * (pi/2))^2`, divide
every entry by the first entry, and keep the first `timesteps` entries. -/
noncomputable def build_schedule_spec (timesteps : ℕ) (s : ℝ) : List ℝ :=
  let steps : ℕ := timesteps + 1
  let pts : List ℝ :=
    (List.range steps).map (fun i : ℕ => (i : ℝ) * ((steps : ℝ) / ((steps : ℝ) - 1)))
  let vals := pts.map
    (fun x => Real.cos ((x / (steps : ℝ) + s) / (1 + s) * (Real.pi / 2)) ^ 2)
  let normed := vals.map (fun v => v / vals.headI)
  normed.take timesteps

/-- State touched by one epoch iteration of the training loop: network
parameters, optimizer state, the growing loss log, and the checkpoint file
(`torch.save` overwrites `diffusion_checkpoint.pth` each active epoch). -/
structure TrainState (M O : Type) where
  model : M
  optState : O
  lossLog : List ℝ
  checkpointFile : Option (ℕ × M × O)

/-- The body of one active epoch (train.py lines 111-171): run the batch
loop — abstracted as `epochTrain`, the external network/optimizer
collaborator returning new parameters, new optimizer state and the
per-batch losses — append those losses to the log, and save a checkpoint
recording the epoch index and the new states.  The validation pass reads
but does not change any of this state. -/
def runEpochBody {M O : Type} (epochTrain : ℕ → M → O → M × O × List ℝ)
    (epoch : ℕ) (st : TrainState M O) : TrainState M O :=
  let r := epochTrain epoch st.model st.optState
  { model := r.1, optState := r.2.1, lossLog := st.lossLog ++ r.2.2,
    checkpointFile := some (epoch, r.1, r.2.1) }

/-- One iteration of the epoch loop (train.py lines 109-110 and 172-173):
the body runs only under the conditional `epoch >= resume_epoch`; the
`else` branch only prints a skip message. -/
def epochIter {M O : Type} (body : ℕ → TrainState M O → TrainState M O)
    (resumeEpoch : ℤ) (st : TrainState M O) (epoch : ℕ) : TrainState M O :=
  if resumeEpoch ≤ (epoch : ℤ) then body epoch st else st

/-- The whole epoch loop, `for epoch in trange(params.train_epoch)`: fold
the guarded iteration over every epoch index `0, ..., numEpochs - 1`. -/
def trainLoop {M O : Type} (body : ℕ → TrainState M O → TrainState M O)
    (resumeEpoch : ℤ) (numEpochs : ℕ) (st : TrainState M O) : TrainState M O :=
  (List.range numEpochs).foldl (epochIter body resumeEpoch) st

/-- Length of the schedule: `alphas_bar[:timesteps]` always has exactly
`timesteps` entries (the grid has `timesteps + 1` points). -/
theorem length_cosine_alphas_bar (T : ℕ) (s : ℝ) :
    (cosine_alphas_bar T s).length = T := by
  simp only [cosine_alphas_bar, linspace, List.length_take, List.length_map,
    List.length_range]
  omega

/-- Entry `i` of `linspace e n` is `e * i / (n - 1)`. -/
theorem getElem?_linspace (e : ℝ) (n i : ℕ) (hi : i < n) :
    (linspace e n)[i]? = some (e * i / ((n : ℝ) - 1)) := by
  rw [linspace, List.getElem?_map, List.getElem?_range hi]
  rfl

/-- The first grid point is `0`, so the normalizing constant `alphas_bar[0]`
is `rawPoint T s 0`. -/
theorem headI_unnormalized (T : ℕ) (s : ℝ) :
    ((linspace ((T + 1 : ℕ) : ℝ) (T + 1)).map
      (fun xi => Real.cos ((xi / ((T + 1 : ℕ) : ℝ) + s) / (1 + s) * (Real.pi * 0.5)) ^ 2)).headI
      = rawPoint T s 0 := by
  rw [linspace, List.range_succ_eq_map]
  simp [rawPoint]

/-- Closed form of the whole schedule: entry `i` equals
`rawPoint T s i / rawPoint T s 0`, because grid point `x_i = (T+1)*i/T`
satisfies `x_i / (T+1) = i / T`. -/
theorem getElem?_cosine_alphas_bar (T : ℕ) (s : ℝ) (hT : 0 < T) (i : ℕ) (hi : i < T) :
    (cosine_alphas_bar T s)[i]? = some (rawPoint T s i / rawPoint T s 0) := by
  have hi1 : i < T + 1 := Nat.lt_succ_of_lt hi
  have hT1 : ((T + 1 : ℕ) : ℝ) ≠ 0 := by positivity
  have hTne : (T : ℝ) ≠ 0 := Nat.cast_ne_zero.mpr hT.ne'
  have hTr : ((T + 1 : ℕ) : ℝ) - 1 = (T : ℝ) := by push_cast; ring
  have key : ((T + 1 : ℕ) : ℝ) * (i : ℝ) / (T : ℝ) / ((T + 1 : ℕ) : ℝ)
      = (i : ℝ) / (T : ℝ) := by
    field_simp
    ring
  simp only [cosine_alphas_bar, headI_unnormalized T s]
  rw [List.getElem?_take_of_lt hi, List.getElem?_map, List.getElem?_map,
    getElem?_linspace _ _ _ hi1]
  simp only [Option.map_some']
  rw [hTr, key]
  rfl

/-- The reversed schedule also has exactly `timesteps` entries. -/
theorem length_alphas (T : ℕ) (s : ℝ) : (alphas T s).length = T := by
  rw [alphas, List.length_reverse, length_cosine_alphas_bar]

/-- Entry form of the closed form for the raw schedule. -/
theorem entry_cosine_alphas_bar (T : ℕ) (s : ℝ) (hT : 0 < T) (i : ℕ) (hi : i < T) :
    entry (cosine_alphas_bar T s) i = rawPoint T s i / rawPoint T s 0 := by
  rw [entry, List.getD_eq_getD_get?, List.get?_eq_getElem?,
    getElem?_cosine_alphas_bar T s hT i hi]
  rfl

/-- Entry `t` of the reversed schedule is raw entry `T - 1 - t`. -/
theorem entry_alphas (T : ℕ) (s : ℝ) (hT : 0 < T) (t : ℕ) (ht : t < T) :
    entry (alphas T s) t = rawPoint T s (T - 1 - t) / rawPoint T s 0 := by
  have hlen : (cosine_alphas_bar T s).length = T := length_cosine_alphas_bar T s
  have ht' : t < (cosine_alphas_bar T s).length := by rw [hlen]; exact ht
  rw [alphas, entry, List.getD_eq_getD_get?, List.get?_eq_getElem?,
    List.getElem?_reverse ht', hlen,
    getElem?_cosine_alphas_bar T s hT _ (by omega)]
  rfl

/-- The cosine argument at grid index `i < T` lies strictly inside
`(0, pi/2)`. -/
theorem arg_mem (T : ℕ) (s : ℝ) (hT : 0 < T) (hs : 0 < s) (i : ℕ) (hi : i < T) :
    0 < ((i : ℝ) / T + s) / (1 + s) * (Real.pi * 0.5) ∧
      ((i : ℝ) / T + s) / (1 + s) * (Real.pi * 0.5) < Real.pi / 2 := by
  have hTpos : (0 : ℝ) < T := by exact_mod_cast hT
  have h1s : (0 : ℝ) < 1 + s := by linarith
  have hu1 : (i : ℝ) / T < 1 := by
    rw [div_lt_one hTpos]; exact_mod_cast hi
  have hratio1 : ((i : ℝ) / T + s) / (1 + s) < 1 := by
    rw [div_lt_one h1s]; linarith
  have hpi : (0 : ℝ) < Real.pi := Real.pi_pos
  constructor
  · have hu0 : (0 : ℝ) ≤ (i : ℝ) / T := by positivity
    positivity
  · have : ((i : ℝ) / T + s) / (1 + s) * (Real.pi * 0.5) < 1 * (Real.pi * 0.5) := by
      apply mul_lt_mul_of_pos_right hratio1
      positivity
    linarith

/-- Unnormalized schedule points are strictly positive (the cosine argument
never reaches `pi/2` on the retained indices). -/
theorem rawPoint_pos (T : ℕ) (s : ℝ) (hT : 0 < T) (hs : 0 < s) (i : ℕ) (hi : i < T) :
    0 < rawPoint T s i := by
  obtain ⟨h0, h1⟩ := arg_mem T s hT hs i hi
  have hpi : (0 : ℝ) < Real.pi := Real.pi_pos
  have hcos : 0 < Real.cos (((i : ℝ) / T + s) / (1 + s) * (Real.pi * 0.5)) :=
    Real.cos_pos_of_mem_Ioo (Set.mem_Ioo.mpr ⟨by linarith, h1⟩)
  rw [rawPoint]
  exact pow_pos hcos 2

/-- Unnormalized schedule points are non-increasing in the index: the
cosine argument grows with `i` and `cos^2` falls on `[0, pi/2]`. -/
theorem rawPoint_anti (T : ℕ) (s : ℝ) (hT : 0 < T) (hs : 0 < s) (i j : ℕ)
    (hij : i ≤ j) (hj : j < T) :
    rawPoint T s j ≤ rawPoint T s i := by
  have hi : i < T := lt_of_le_of_lt hij hj
  obtain ⟨hi0, hi1⟩ := arg_mem T s hT hs i hi
  obtain ⟨hj0, hj1⟩ := arg_mem T s hT hs j hj
  have hpi : (0 : ℝ) < Real.pi := Real.pi_pos
  have hTpos : (0 : ℝ) < T := by exact_mod_cast hT
  have h1s : (0 : ℝ) < 1 + s := by linarith
  have hmono : ((i : ℝ) / T + s) / (1 + s) * (Real.pi * 0.5)
      ≤ ((j : ℝ) / T + s) / (1 + s) * (Real.pi * 0.5) := by
    have hij' : (i : ℝ) ≤ (j : ℝ) := by exact_mod_cast hij
    gcongr
  have hcos : Real.cos (((j : ℝ) / T + s) / (1 + s) * (Real.pi * 0.5))
      ≤ Real.cos (((i : ℝ) / T + s) / (1 + s) * (Real.pi * 0.5)) :=
    Real.cos_le_cos_of_nonneg_of_le_pi hi0.le (by linarith) hmono
  have hcosj : 0 ≤ Real.cos (((j : ℝ) / T + s) / (1 + s) * (Real.pi * 0.5)) :=
    Real.cos_nonneg_of_mem_Icc (Set.mem_Icc.mpr ⟨by linarith, hj1.le⟩)
  rw [rawPoint, rawPoint]
  exact pow_le_pow_left₀ hcosj hcos 2

/-- Every raw schedule entry is strictly positive. -/
theorem entry_pos (T : ℕ) (s : ℝ) (hT : 0 < T) (hs : 0 < s) (i : ℕ) (hi : i < T) :
    0 < entry (cosine_alphas_bar T s) i := by
  rw [entry_cosine_alphas_bar T s hT i hi]
  exact div_pos (rawPoint_pos T s hT hs i hi) (rawPoint_pos T s hT hs 0 hT)

/-- Every raw schedule entry is at most `1`. -/
theorem entry_le_one (T : ℕ) (s : ℝ) (hT : 0 < T) (hs : 0 < s) (i : ℕ) (hi : i < T) :
    entry (cosine_alphas_bar T s) i ≤ 1 := by
  rw [entry_cosine_alphas_bar T s hT i hi]
  rw [div_le_one (rawPoint_pos T s hT hs 0 hT)]
  exact rawPoint_anti T s hT hs 0 i (Nat.zero_le i) hi

/-- The first raw schedule entry is exactly `1` (the normalization divides
the sequence by its own first element). -/
theorem entry_zero_eq_one (T : ℕ) (s : ℝ) (hT : 0 < T) (hs : 0 < s) :
    entry (cosine_alphas_bar T s) 0 = 1 := by
  rw [entry_cosine_alphas_bar T s hT 0 hT]
  exact div_self (rawPoint_pos T s hT hs 0 hT).ne'

/-- The raw schedule is non-increasing. -/
theorem entry_anti (T : ℕ) (s : ℝ) (hT : 0 < T) (hs : 0 < s) (i j : ℕ)
    (hij : i ≤ j) (hj : j < T) :
    entry (cosine_alphas_bar T s) j ≤ entry (cosine_alphas_bar T s) i := by
  have hi : i < T := lt_of_le_of_lt hij hj
  rw [entry_cosine_alphas_bar T s hT i hi, entry_cosine_alphas_bar T s hT j hj]
  rw [div_le_div_iff_of_pos_right (rawPoint_pos T s hT hs 0 hT)]
  exact rawPoint_anti T s hT hs i j hij hj

/-- The reversed schedule is non-decreasing. -/
theorem entry_alphas_mono (T : ℕ) (s : ℝ) (hT : 0 < T) (hs : 0 < s) (t u : ℕ)
    (htu : t ≤ u) (hu : u < T) :
    entry (alphas T s) t ≤ entry (alphas T s) u := by
  have ht : t < T := lt_of_le_of_lt htu hu
  rw [entry_alphas T s hT t ht, entry_alphas T s hT u hu]
  rw [div_le_div_iff_of_pos_right (rawPoint_pos T s hT hs 0 hT)]
  exact rawPoint_anti T s hT hs (T - 1 - u) (T - 1 - t) (by omega) (by omega)

/-- The last entry of the reversed schedule equals `1` exactly. -/
theorem entry_alphas_last (T : ℕ) (s : ℝ) (hT : 0 < T) (hs : 0 < s) :
    entry (alphas T s) (T - 1) = 1 := by
  rw [entry_alphas T s hT (T - 1) (by omega)]
  have h0 : T - 1 - (T - 1) = 0 := by omega
  rw [h0]
  exact div_self (rawPoint_pos T s hT hs 0 hT).ne'

/-- Every reversed-schedule entry is strictly positive. -/
theorem entry_alphas_pos (T : ℕ) (s : ℝ) (hT : 0 < T) (hs : 0 < s) (t : ℕ)
    (ht : t < T) : 0 < entry (alphas T s) t := by
  rw [entry_alphas T s hT t ht]
  exact div_pos (rawPoint_pos T s hT hs (T - 1 - t) (by omega))
    (rawPoint_pos T s hT hs 0 hT)

/-- Every reversed-schedule entry is at most `1`. -/
theorem entry_alphas_le_one (T : ℕ) (s : ℝ) (hT : 0 < T) (hs : 0 < s) (t : ℕ)
    (ht : t < T) : entry (alphas T s) t ≤ 1 := by
  rw [entry_alphas T s hT t ht]
  rw [div_le_one (rawPoint_pos T s hT hs 0 hT)]
  exact rawPoint_anti T s hT hs 0 (T - 1 - t) (Nat.zero_le _) (by omega)

/-- An index in `[0, len)` reads the list directly. -/
theorem torchGet_of_lt (l : List ℝ) (t : ℕ) (ht : t < l.length) :
    torchGet l (t : ℤ) = some (entry l t) := by
  have h1 : (0 : ℤ) ≤ (t : ℤ) ∧ (t : ℤ) < (l.length : ℤ) :=
    ⟨Int.natCast_nonneg t, by exact_mod_cast ht⟩
  have h2 : ((t : ℤ)).toNat = t := by omega
  rw [torchGet, if_pos h1, h2, List.getElem?_eq_getElem ht, entry,
    List.getD_eq_getElem _ _ ht]

/-- Index `-1` silently wraps to the last element. -/
theorem torchGet_neg_one (l : List ℝ) (hl : 0 < l.length) :
    torchGet l (-1) = some (entry l (l.length - 1)) := by
  have h2 : ((-1 : ℤ) + l.length).toNat = l.length - 1 := by omega
  have hlt : l.length - 1 < l.length := by omega
  rw [torchGet, if_neg (by omega), if_pos (by omega), h2,
    List.getElem?_eq_getElem hlt, entry, List.getD_eq_getElem _ _ hlt]

/-- Index `len` itself is an IndexError. -/
theorem torchGet_len (l : List ℝ) : torchGet l (l.length : ℤ) = none := by
  rw [torchGet, if_neg (by omega), if_neg (by omega)]

/-- The spec-side schedule has the same normalizing constant. -/
theorem headI_spec_unnormalized (T : ℕ) (s : ℝ) :
    (((List.range (T + 1)).map
        (fun i : ℕ => (i : ℝ) * (((T + 1 : ℕ) : ℝ) / (((T + 1 : ℕ) : ℝ) - 1)))).map
      (fun x => Real.cos ((x / ((T + 1 : ℕ) : ℝ) + s) / (1 + s) * (Real.pi / 2)) ^ 2)).headI
      = rawPoint T s 0 := by
  rw [List.range_succ_eq_map]
  have hhalf : Real.pi / 2 = Real.pi * 0.5 := by ring
  simp [rawPoint, hhalf]

/-- The spec-side schedule has length `timesteps`. -/
theorem length_build_schedule_spec (T : ℕ) (s : ℝ) :
    (build_schedule_spec T s).length = T := by
  simp only [build_schedule_spec, List.length_take, List.length_map,
    List.length_range]
  omega

/-- Entrywise closed form of the spec-side schedule: identical to the one
of `cosine_alphas_bar`. -/
theorem getElem?_build_schedule_spec (T : ℕ) (s : ℝ) (hT : 0 < T) (i : ℕ) (hi : i < T) :
    (build_schedule_spec T s)[i]? = some (rawPoint T s i / rawPoint T s 0) := by
  have hi1 : i < T + 1 := Nat.lt_succ_of_lt hi
  have hT1 : ((T + 1 : ℕ) : ℝ) ≠ 0 := by positivity
  have hTne : (T : ℝ) ≠ 0 := Nat.cast_ne_zero.mpr hT.ne'
  have hTr : ((T + 1 : ℕ) : ℝ) - 1 = (T : ℝ) := by push_cast; ring
  have hhalf : Real.pi / 2 = Real.pi * 0.5 := by ring
  have key : (i : ℝ) * (((T + 1 : ℕ) : ℝ) / (T : ℝ)) / ((T + 1 : ℕ) : ℝ)
      = (i : ℝ) / (T : ℝ) := by
    field_simp
    ring
  simp only [build_schedule_spec, headI_spec_unnormalized T s]
  rw [List.getElem?_take_of_lt hi, List.getElem?_map, List.getElem?_map,
    List.getElem?_map, List.getElem?_range hi1]
  simp only [Option.map_some']
  rw [hTr, key, hhalf]
  rfl

/-- A fold of the guarded epoch iteration equals a fold of the bare body
over only the non-skipped epoch indices. -/
theorem foldl_epochIter_filter {M O : Type}
    (body : ℕ → TrainState M O → TrainState M O) (r : ℤ) (l : List ℕ)
    (st : TrainState M O) :
    l.foldl (epochIter body r) st
      = (l.filter (fun e : ℕ => decide (r ≤ (e : ℤ)))).foldl
          (fun sst e => body e sst) st := by
  induction l generalizing st with
  | nil => rfl
  | cons a l ih =>
      by_cases h : r ≤ (a : ℤ)
      · rw [List.foldl_cons, List.filter_cons_of_pos (by simpa using h),
          List.foldl_cons, epochIter, if_pos h]
        exact ih _
      · rw [List.foldl_cons, List.filter_cons_of_neg (by simpa using h),
          epochIter, if_neg h]
        exact ih _

/-- Claim C1: for every positive `timesteps` and positive `s`,
`cosine_alphas_bar` follows exactly the spec's algorithm: `timesteps + 1`
evenly spaced sample points over `[0, steps]`, the value
`cos(((x/steps + s)/(1+s)) * (pi/2))^2` at each point, every entry divided
by the first entry, and only the first `timesteps` entries returned. -/
theorem c1_schedule_algorithm (T : ℕ) (s : ℝ) (hT : 0 < T) (hs : 0 < s) :
    cosine_alphas_bar T s = build_schedule_spec T s := by
  apply List.ext_getElem?
  intro i
  by_cases hi : i < T
  · rw [getElem?_cosine_alphas_bar T s hT i hi,
      getElem?_build_schedule_spec T s hT i hi]
  · rw [List.getElem?_eq_none, List.getElem?_eq_none]
    · rw [length_build_schedule_spec]; omega
    · rw [length_cosine_alphas_bar]; omega

/-- Witness for C1 at `timesteps = 3`, `s = 1`. -/
theorem c1_witness :
    (0 < 3 ∧ (0 : ℝ) < 1) ∧ cosine_alphas_bar 3 1 = build_schedule_spec 3 1 :=
  ⟨⟨by decide, by norm_num⟩, c1_schedule_algorithm 3 1 (by decide) (by norm_num)⟩

/-- Claim C2: for in-range `t`, the corruption step outputs
`sqrt(a) * x + sqrt(1 - a) * noise` with `a` the reversed schedule's entry
at `t`, broadcast over the sample's index space; in particular, with `x`
all zeros and `noise` all ones the output is `sqrt(1 - a)` broadcast. -/
theorem c2_corrupt_formula (T : ℕ) (s : ℝ) (t : ℕ) {ι : Type} (x noise : ι → ℝ)
    (hT : 0 < T) (hs : 0 < s) (ht : t < T) :
    corrupt (alphas T s) (t : ℤ) x noise
      = some (fun i => Real.sqrt (entry (alphas T s) t) * x i
          + Real.sqrt (1 - entry (alphas T s) t) * noise i)
    ∧ corrupt (alphas T s) (t : ℤ) (fun _ : ι => 0) (fun _ => 1)
      = some (fun _ : ι => Real.sqrt (1 - entry (alphas T s) t)) := by
  have hlen : t < (alphas T s).length := by rw [length_alphas]; exact ht
  have hget := torchGet_of_lt (alphas T s) t hlen
  constructor
  · rw [corrupt, hget]
    rfl
  · rw [corrupt, hget]
    simp only [Option.map_some']
    congr 1
    funext i
    rw [mul_zero, mul_one, zero_add]

/-- Witness for C2 at `T = 3`, `s = 1`, `t = 1`, a one-point sample. -/
theorem c2_witness :
    (0 < 3 ∧ (0 : ℝ) < 1 ∧ 1 < 3)
    ∧ (corrupt (alphas 3 1) ((1 : ℕ) : ℤ) (fun _ : Unit => (2 : ℝ)) (fun _ => 5)
        = some (fun _ : Unit => Real.sqrt (entry (alphas 3 1) 1) * 2
            + Real.sqrt (1 - entry (alphas 3 1) 1) * 5)
      ∧ corrupt (alphas 3 1) ((1 : ℕ) : ℤ) (fun _ : Unit => 0) (fun _ => 1)
        = some (fun _ : Unit => Real.sqrt (1 - entry (alphas 3 1) 1))) :=
  ⟨⟨by decide, by norm_num, by decide⟩,
   c2_corrupt_formula 3 1 1 (fun _ => 2) (fun _ => 5)
     (by decide) (by norm_num) (by decide)⟩

/-- Counterexample to claim C3 as stated: with the schedule of length 3,
the corruption step at index `-1` does NOT fail — PyTorch indexing
silently wraps `-1` to the last entry — and `cosine_alphas_bar 0 s`
returns an empty list rather than raising. -/
theorem c3_counterexample :
    corrupt (alphas 3 1) (-1) (fun _ : Unit => (0 : ℝ)) (fun _ => 1) ≠ none
    ∧ cosine_alphas_bar 0 1 = [] := by
  constructor
  · have hget := torchGet_neg_one (alphas 3 1)
      (by rw [length_alphas]; decide)
    rw [corrupt, hget]
    simp
  · rfl

/-- Claim C3 as amended: the corruption step at `t = timesteps` fails with
an index-out-of-range error, but at `t = -1` it silently wraps to the last
(cleanest) schedule entry and succeeds, and `cosine_alphas_bar` at
`timesteps = 0` returns the empty schedule without error. -/
theorem c3_amended_boundary (T : ℕ) (s : ℝ) {ι : Type} (x noise : ι → ℝ)
    (hT : 0 < T) (hs : 0 < s) :
    corrupt (alphas T s) ((T : ℕ) : ℤ) x noise = none
    ∧ corrupt (alphas T s) (-1) x noise
        = some (fun i => Real.sqrt (entry (alphas T s) (T - 1)) * x i
            + Real.sqrt (1 - entry (alphas T s) (T - 1)) * noise i)
    ∧ cosine_alphas_bar 0 s = [] := by
  refine ⟨?_, ?_, rfl⟩
  · have h := torchGet_len (alphas T s)
    rw [length_alphas] at h
    rw [corrupt, h]
    rfl
  · have hget := torchGet_neg_one (alphas T s) (by rw [length_alphas]; omega)
    rw [length_alphas] at hget
    rw [corrupt, hget]
    rfl

/-- Witness for the amended C3 at `T = 3`, `s = 1`. -/
theorem c3_amended_witness :
    (0 < 3 ∧ (0 : ℝ) < 1)
    ∧ (corrupt (alphas 3 1) ((3 : ℕ) : ℤ) (fun _ : Unit => (2 : ℝ)) (fun _ => 5) = none
      ∧ corrupt (alphas 3 1) (-1) (fun _ : Unit => (2 : ℝ)) (fun _ => 5)
          = some (fun _ : Unit => Real.sqrt (entry (alphas 3 1) 2) * 2
              + Real.sqrt (1 - entry (alphas 3 1) 2) * 5)
      ∧ cosine_alphas_bar 0 1 = []) :=
  ⟨⟨by decide, by norm_num⟩,
   c3_amended_boundary 3 1 (fun _ => 2) (fun _ => 5) (by decide) (by norm_num)⟩

/-- Claim C4: the raw schedule is monotonically non-increasing; the
reversed schedule is monotonically non-decreasing, its index 0 holds the
minimum retained fraction, and its last entry (index `timesteps - 1`)
equals `1.0`. -/
theorem c4_monotonicity (T : ℕ) (s : ℝ) (hT : 0 < T) (hs : 0 < s) :
    (∀ i j, i ≤ j → j < T →
        entry (cosine_alphas_bar T s) j ≤ entry (cosine_alphas_bar T s) i)
    ∧ (∀ t u, t ≤ u → u < T → entry (alphas T s) t ≤ entry (alphas T s) u)
    ∧ (∀ j, j < T → entry (alphas T s) 0 ≤ entry (alphas T s) j)
    ∧ entry (alphas T s) (T - 1) = 1 :=
  ⟨fun i j hij hj => entry_anti T s hT hs i j hij hj,
   fun t u htu hu => entry_alphas_mono T s hT hs t u htu hu,
   fun j hj => entry_alphas_mono T s hT hs 0 j (Nat.zero_le j) hj,
   entry_alphas_last T s hT hs⟩

/-- Witness for C4 at `T = 3`, `s = 1`. -/
theorem c4_witness :
    (0 < 3 ∧ (0 : ℝ) < 1)
    ∧ ((∀ i j, i ≤ j → j < 3 →
          entry (cosine_alphas_bar 3 1) j ≤ entry (cosine_alphas_bar 3 1) i)
      ∧ (∀ t u, t ≤ u → u < 3 → entry (alphas 3 1) t ≤ entry (alphas 3 1) u)
      ∧ (∀ j, j < 3 → entry (alphas 3 1) 0 ≤ entry (alphas 3 1) j)
      ∧ entry (alphas 3 1) 2 = 1) :=
  ⟨⟨by decide, by norm_num⟩, c4_monotonicity 3 1 (by decide) (by norm_num)⟩

/-- Claim C5: the schedule has exactly `timesteps` values, its first
(pre-reversal) value is exactly `1`, every value lies in `(0, 1]`; the
last reversed entry is `1`, the reversed entry at index 0 is the minimum,
and it is strictly positive (instantiated at `timesteps = 1000`,
`s = 0.008` by the witness). -/
theorem c5_range (T : ℕ) (s : ℝ) (hT : 0 < T) (hs : 0 < s) :
    (cosine_alphas_bar T s).length = T
    ∧ entry (cosine_alphas_bar T s) 0 = 1
    ∧ (∀ i, i < T → 0 < entry (cosine_alphas_bar T s) i
        ∧ entry (cosine_alphas_bar T s) i ≤ 1)
    ∧ entry (alphas T s) (T - 1) = 1
    ∧ (∀ j, j < T → entry (alphas T s) 0 ≤ entry (alphas T s) j)
    ∧ 0 < entry (alphas T s) 0 :=
  ⟨length_cosine_alphas_bar T s, entry_zero_eq_one T s hT hs,
   fun i hi => ⟨entry_pos T s hT hs i hi, entry_le_one T s hT hs i hi⟩,
   entry_alphas_last T s hT hs,
   fun j hj => entry_alphas_mono T s hT hs 0 j (Nat.zero_le j) hj,
   entry_alphas_pos T s hT hs 0 hT⟩

/-- Witness for C5 at the concrete configuration `timesteps = 1000`,
`s = 0.008` of the spec's scenario. -/
theorem c5_witness :
    (0 < 1000 ∧ (0 : ℝ) < 0.008)
    ∧ ((cosine_alphas_bar 1000 0.008).length = 1000
      ∧ entry (cosine_alphas_bar 1000 0.008) 0 = 1
      ∧ (∀ i, i < 1000 → 0 < entry (cosine_alphas_bar 1000 0.008) i
          ∧ entry (cosine_alphas_bar 1000 0.008) i ≤ 1)
      ∧ entry (alphas 1000 0.008) 999 = 1
      ∧ (∀ j, j < 1000 → entry (alphas 1000 0.008) 0 ≤ entry (alphas 1000 0.008) j)
      ∧ 0 < entry (alphas 1000 0.008) 0) :=
  ⟨⟨by decide, by norm_num⟩, c5_range 1000 0.008 (by decide) (by norm_num)⟩

/-- Claim C6: at the schedule's cleanest index (the last reversed entry,
whose retained fraction is exactly `1`), the corruption step returns the
clean sample `x` exactly, with zero contribution from the noise. -/
theorem c6_identity (T : ℕ) (s : ℝ) {ι : Type} (x noise : ι → ℝ)
    (hT : 0 < T) (hs : 0 < s) :
    corrupt (alphas T s) ((T - 1 : ℕ) : ℤ) x noise = some x := by
  have hlen : T - 1 < (alphas T s).length := by rw [length_alphas]; omega
  have hget := torchGet_of_lt (alphas T s) (T - 1) hlen
  rw [corrupt, hget, entry_alphas_last T s hT hs]
  simp only [Option.map_some']
  congr 1
  funext i
  rw [sub_self, Real.sqrt_zero, Real.sqrt_one, one_mul, zero_mul, add_zero]

/-- Witness for C6 at `T = 2`, `s = 1`, a constant one-point sample. -/
theorem c6_witness :
    (0 < 2 ∧ (0 : ℝ) < 1)
    ∧ corrupt (alphas 2 1) ((1 : ℕ) : ℤ) (fun _ : Unit => (7 : ℝ)) (fun _ => 9)
        = some (fun _ : Unit => (7 : ℝ)) :=
  ⟨⟨by decide, by norm_num⟩,
   c6_identity 2 1 (fun _ => 7) (fun _ => 9) (by decide) (by norm_num)⟩

/-- Claim C7: for every schedule entry `a` (all of which lie in `(0, 1]`),
the squares of the two mixing weights of the corruption step sum to
exactly `1`: `sqrt(a)^2 + sqrt(1-a)^2 = a + (1-a) = 1`. -/
theorem c7_weights (T : ℕ) (s : ℝ) (t : ℕ) (hT : 0 < T) (hs : 0 < s)
    (ht : t < T) :
    Real.sqrt (entry (alphas T s) t) ^ 2
      + Real.sqrt (1 - entry (alphas T s) t) ^ 2 = 1 := by
  have h0 : 0 < entry (alphas T s) t := entry_alphas_pos T s hT hs t ht
  have h1 : entry (alphas T s) t ≤ 1 := entry_alphas_le_one T s hT hs t ht
  rw [Real.sq_sqrt h0.le, Real.sq_sqrt (by linarith)]
  ring

/-- Witness for C7 at `T = 3`, `s = 1`, `t = 1`. -/
theorem c7_witness :
    (0 < 3 ∧ (0 : ℝ) < 1 ∧ 1 < 3)
    ∧ Real.sqrt (entry (alphas 3 1) 1) ^ 2
        + Real.sqrt (1 - entry (alphas 3 1) 1) ^ 2 = 1 :=
  ⟨⟨by decide, by norm_num, by decide⟩,
   c7_weights 3 1 1 (by decide) (by norm_num) (by decide)⟩

/-- Claim C8: `cosine_alphas_bar` is deterministic — two invocations with
identical arguments return identical sequences.  In the embedding the
function reads nothing but its two arguments (matching the source, which
uses only `torch.linspace` and `torch.cos` on them), so this is purity by
construction. -/
theorem c8_deterministic (T U : ℕ) (s u : ℝ) (hT : T = U) (hs : s = u) :
    cosine_alphas_bar T s = cosine_alphas_bar U u := by
  rw [hT, hs]

/-- Witness for C8 at the run's configuration `T = 1000`, `s = 0.008`. -/
theorem c8_witness :
    ((1000 : ℕ) = 1000 ∧ (0.008 : ℝ) = 0.008)
    ∧ cosine_alphas_bar 1000 0.008 = cosine_alphas_bar 1000 0.008 :=
  ⟨⟨rfl, rfl⟩, c8_deterministic 1000 1000 0.008 0.008 rfl rfl⟩

/-- Claim C9: the loop iterates every epoch index, but an iteration whose
epoch index is strictly below `resume_epoch` leaves the state — model
parameters, optimizer state, loss log, and checkpoint file — unchanged;
equivalently, the guarded fold over all of `range numEpochs` equals the
bare fold over only the indices at or above `resume_epoch`. -/
theorem c9_resume_skip {M O : Type} (epochTrain : ℕ → M → O → M × O × List ℝ)
    (r : ℤ) (n : ℕ) (st : TrainState M O) :
    (∀ (e : ℕ) (sst : TrainState M O), (e : ℤ) < r →
        epochIter (runEpochBody epochTrain) r sst e = sst)
    ∧ trainLoop (runEpochBody epochTrain) r n st
        = ((List.range n).filter (fun e : ℕ => decide (r ≤ (e : ℤ)))).foldl
            (fun sst e => runEpochBody epochTrain e sst) st := by
  constructor
  · intro e sst he
    rw [epochIter, if_neg (by omega)]
  · rw [trainLoop, foldl_epochIter_filter]

/-- Witness for C9: with `resume_epoch = 5`, the iteration at epoch 2
returns the state unchanged. -/
theorem c9_witness :
    ((2 : ℤ) < 5)
    ∧ epochIter (runEpochBody (fun e m o => (m + 1, o + 1, [(e : ℝ)]))) 5
        (⟨0, 0, [], none⟩ : TrainState ℕ ℕ) 2 = ⟨0, 0, [], none⟩ :=
  ⟨by decide,
   (c9_resume_skip (fun e m o => (m + 1, o + 1, [(e : ℝ)])) 5 3
       ⟨0, 0, [], none⟩).1 2 ⟨0, 0, [], none⟩ (by decide)⟩

/-- Claim C10: in exact real arithmetic the `i`-th raw schedule value is
`cos(((i/T + s)/(1+s)) * (pi/2))^2 / cos(((0/T + s)/(1+s)) * (pi/2))^2`,
because the grid points `x_i = i * (T+1) / T` of `linspace(0, T+1, T+1)`
satisfy `x_i / steps = i / T`; the schedule floor (this expression at
`i = T - 1`) is strictly positive. -/
theorem c10_closed_form (T : ℕ) (s : ℝ) (i : ℕ) (hT : 0 < T) (hs : 0 < s)
    (hi : i < T) :
    (cosine_alphas_bar T s)[i]? = some (rawPoint T s i / rawPoint T s 0)
    ∧ 0 < rawPoint T s (T - 1) / rawPoint T s 0 :=
  ⟨getElem?_cosine_alphas_bar T s hT i hi,
   div_pos (rawPoint_pos T s hT hs (T - 1) (by omega))
     (rawPoint_pos T s hT hs 0 hT)⟩

/-- Witness for C10 at `T = 3`, `s = 1`, `i = 1`. -/
theorem c10_witness :
    (0 < 3 ∧ (0 : ℝ) < 1 ∧ 1 < 3)
    ∧ ((cosine_alphas_bar 3 1)[1]? = some (rawPoint 3 1 1 / rawPoint 3 1 0)
      ∧ 0 < rawPoint 3 1 2 / rawPoint 3 1 0) :=
  ⟨⟨by decide, by norm_num, by decide⟩,
   c10_closed_form 3 1 1 (by decide) (by norm_num) (by decide)⟩

end SynthDiffusion
